import Mathlib

/-!
Verification development for the WhatsApp authentication system
(Next.js + Supabase). Each section embeds one part of the source as
executable Lean definitions and proves or refutes the corresponding
specification sentences.
-/

namespace WhatsAppAuth

/-! ### JWT token model

Embeds the `jsonwebtoken`-backed token layer:
`generateAccessToken` / `verifyAccessToken` (src/lib/security.ts, jwt
section) configured by src/lib/jwt-config.ts, and the session wrappers
`generateSecureToken` / `verifySecureToken` (src/utils/secureAuth.ts).
The HMAC-SHA-256 primitive is a parameter `hmac`; a signed token stores
the signing input together with the signature value, and verification
recomputes the signature over the stored input, checks the fixed
issuer/audience and the expiry (`jsonwebtoken` rejects a token once the
clock reaches `exp`, i.e. acceptance requires `now < exp`). -/

structure JWTPayload where
  userId : String
  username : String
  phone : String
  role : String
  iat : Nat
  exp : Nat
deriving DecidableEq, Repr

structure SignInput where
  payload : JWTPayload
  iss : String
  aud : String
deriving DecidableEq, Repr

structure SignedJWT where
  body : SignInput
  sig : Nat
deriving DecidableEq, Repr

def issuerStr : String := "whatsapp-auth-system"

def audienceStr : String := "auth-app"

/-- `generateAccessToken` from src/lib/security.ts: `jwt.sign(payload,
JWT_SECRET, { expiresIn, issuer, audience })`; `jsonwebtoken` sets
`iat = now` and `exp = now + expiresIn`. -/
def generateAccessToken (hmac : String → SignInput → Nat) (secret : String)
    (expiresInSecs : Nat) (now : Nat)
    (userId username phone role : String) : SignedJWT :=
  let body : SignInput :=
    ⟨⟨userId, username, phone, role, now, now + expiresInSecs⟩, issuerStr, audienceStr⟩
  ⟨body, hmac secret body⟩

/-- `verifyAccessToken` from src/lib/security.ts: `jwt.verify(token,
JWT_SECRET, { issuer, audience })`, returning `null` on any failure
(bad signature, issuer/audience mismatch, or `now >= exp`). -/
def verifyAccessToken (hmac : String → SignInput → Nat) (secret : String)
    (now : Nat) (t : SignedJWT) : Option JWTPayload :=
  if t.sig = hmac secret t.body ∧ t.body.iss = issuerStr ∧
      t.body.aud = audienceStr ∧ now < t.body.payload.exp
  then some t.body.payload else none

/-- Session data handled by src/utils/secureAuth.ts. -/
structure SessionData where
  code : String
  name : String
  whatsappNumber : String
  verified : Bool
deriving DecidableEq, Repr

/-- `generateSecureToken` from src/utils/secureAuth.ts: packs the session
data into the JWT payload with `userId = code`, `username = name`,
`phone = whatsappNumber`, `role = 'user'`.  The `verified` field is not
placed in the payload. -/
def generateSecureToken (hmac : String → SignInput → Nat) (secret : String)
    (expiresInSecs : Nat) (now : Nat) (data : SessionData) : SignedJWT :=
  generateAccessToken hmac secret expiresInSecs now
    data.code data.name data.whatsappNumber "user"

/-- `verifySecureToken` from src/utils/secureAuth.ts: decodes the JWT and
rebuilds the session data, unconditionally setting `verified := true`
("JWT tokens are only issued to verified users"). -/
def verifySecureToken (hmac : String → SignInput → Nat) (secret : String)
    (now : Nat) (t : SignedJWT) : Option SessionData :=
  match verifyAccessToken hmac secret now t with
  | none => none
  | some payload => some ⟨payload.userId, payload.username, payload.phone, true⟩

/-- Concrete HMAC instance used by closed witnesses/counterexamples. -/
def hmacEx : String → SignInput → Nat := fun _ _ => 0

/-- Example claims set minted by the reset flow (verified = false). -/
def resetClaimsEx : SessionData := ⟨"AB12C3", "Alice", "1234567890", false⟩

theorem verifySecureToken_mint (hmac : String → SignInput → Nat)
    (secret : String) (ttl t0 now : Nat) (d : SessionData) :
    verifySecureToken hmac secret now (generateSecureToken hmac secret ttl t0 d) =
      if now < t0 + ttl then some ⟨d.code, d.name, d.whatsappNumber, true⟩ else none := by
  simp only [verifySecureToken, generateSecureToken, generateAccessToken, verifyAccessToken]
  by_cases h : now < t0 + ttl <;> simp [h]

/-- C1 as stated is false: minting from the reset-flow claims set (which
has `verified = false`) and verifying strictly before `expiresAt` does
not return an equivalent claims set — the `verified` flag comes back
`true`. -/
theorem claim_C1_counterexample :
    verifySecureToken hmacEx "secret" 1
        (generateSecureToken hmacEx "secret" 3600 0 resetClaimsEx) =
      some ⟨"AB12C3", "Alice", "1234567890", true⟩ ∧
    verifySecureToken hmacEx "secret" 1
        (generateSecureToken hmacEx "secret" 3600 0 resetClaimsEx) ≠
      some resetClaimsEx := by
  constructor
  · rfl
  · intro h
    simp [verifySecureToken, generateSecureToken, generateAccessToken,
      verifyAccessToken, resetClaimsEx, hmacEx] at h

/-- C1 (amended): verifying a freshly minted token strictly before
`expiresAt = t0 + ttl` returns the claims with `code`, `name` and
`phone` preserved and `verified` reported as `true`; verifying at or
after `expiresAt` returns invalid. -/
theorem claim_C1 (hmac : String → SignInput → Nat) (secret : String)
    (ttl t0 now : Nat) (d : SessionData) :
    (now < t0 + ttl →
      verifySecureToken hmac secret now (generateSecureToken hmac secret ttl t0 d) =
        some ⟨d.code, d.name, d.whatsappNumber, true⟩) ∧
    (t0 + ttl ≤ now →
      verifySecureToken hmac secret now (generateSecureToken hmac secret ttl t0 d) =
        none) := by
  constructor
  · intro h
    rw [verifySecureToken_mint]
    simp [h]
  · intro h
    rw [verifySecureToken_mint]
    simp [Nat.not_lt.mpr h]

theorem claim_C1_witness :
    verifySecureToken hmacEx "secret" 3599
        (generateSecureToken hmacEx "secret" 3600 0 resetClaimsEx) =
      some ⟨"AB12C3", "Alice", "1234567890", true⟩ ∧
    verifySecureToken hmacEx "secret" 3600
        (generateSecureToken hmacEx "secret" 3600 0 resetClaimsEx) = none :=
  ⟨(claim_C1 hmacEx "secret" 3600 0 3599 resetClaimsEx).1 (by decide),
   (claim_C1 hmacEx "secret" 3600 0 3600 resetClaimsEx).2 (by decide)⟩

/-- C10: every accepted token decodes with `verified = true`; the minted
payload's role is always `'user'`; and the token never encodes the
`verified` flag (minting from claims with `verified = false` produces
the very same token as minting with `verified = true`), so reset-flow
tokens also decode with `verified = true`. -/
theorem claim_C10 (hmac : String → SignInput → Nat) (secret : String)
    (ttl t0 now : Nat) (t : SignedJWT) (d s : SessionData) :
    (verifySecureToken hmac secret now t = some s → s.verified = true) ∧
    ((generateSecureToken hmac secret ttl t0 d).body.payload.role = "user") ∧
    (generateSecureToken hmac secret ttl t0 d =
      generateSecureToken hmac secret ttl t0 ⟨d.code, d.name, d.whatsappNumber, true⟩) := by
  refine ⟨?_, rfl, rfl⟩
  intro h
  simp only [verifySecureToken] at h
  cases hv : verifyAccessToken hmac secret now t with
  | none => rw [hv] at h; exact absurd h (by simp)
  | some p => rw [hv] at h; cases h; rfl

theorem claim_C10_witness :
    (verifySecureToken hmacEx "secret" 1
        (generateSecureToken hmacEx "secret" 3600 0 resetClaimsEx)).map
        (fun s => s.verified) = some true := by
  have h := (claim_C10 hmacEx "secret" 3600 0 1
      (generateSecureToken hmacEx "secret" 3600 0 resetClaimsEx) resetClaimsEx
      ⟨"AB12C3", "Alice", "1234567890", true⟩).1
  have hv : verifySecureToken hmacEx "secret" 1
      (generateSecureToken hmacEx "secret" 3600 0 resetClaimsEx) =
      some ⟨"AB12C3", "Alice", "1234567890", true⟩ := by rfl
  rw [hv]
  exact congrArg some (h hv)

/-! ### Webhook signature verification (src/lib/security.ts, `verifyWebhookSignature`)

Strings are embedded as `List Char`.  The HMAC-SHA-256 hex digest is a
parameter `hmacHex`.  `Buffer.from(s, 'hex')` is embedded as
`hexDecode`, which decodes consecutive valid hex pairs and stops at the
first invalid pair (Node semantics).  Node's `crypto.timingSafeEqual`
throws on buffers of different length (caught by the surrounding
`try`, yielding `false`) and otherwise compares byte equality. -/

def hexVal (c : Char) : Option Nat :=
  if '0' ≤ c ∧ c ≤ '9' then some (c.toNat - '0'.toNat)
  else if 'a' ≤ c ∧ c ≤ 'f' then some (c.toNat - 'a'.toNat + 10)
  else if 'A' ≤ c ∧ c ≤ 'F' then some (c.toNat - 'A'.toNat + 10)
  else none

def hexDecode : List Char → List Nat
  | a :: b :: rest =>
    match hexVal a, hexVal b with
    | some x, some y => (16 * x + y) :: hexDecode rest
    | _, _ => []
  | _ => []

/-- The format gate `/^[a-f0-9]{64}$/i` of the signature hash. -/
def isHex64 (s : List Char) : Bool :=
  s.length = 64 && s.all fun c =>
    ('0' ≤ c ∧ c ≤ '9') ∨ ('a' ≤ c ∧ c ≤ 'f') ∨ ('A' ≤ c ∧ c ≤ 'F')

/-- Node `crypto.timingSafeEqual` under the surrounding try/catch:
length mismatch throws (→ `false`), else byte-wise equality. -/
def nodeTimingSafeEqual (a b : List Nat) : Bool :=
  if a.length = b.length then decide (a = b) else false

def sha256Tag : List Char := "sha256=".toList

/-- `verifyWebhookSignature(payload, signature, secret)` from
src/lib/security.ts lines 144–208, gate by gate. -/
def verifyWebhookSignature (hmacHex : List Char → List Char → List Char)
    (payload : List Char) (signature : Option (List Char))
    (secret : List Char) : Bool :=
  if payload = [] then false
  else match signature with
  | none => false
  | some sig =>
    if sig = [] then false
    else if secret = [] then false
    else if ¬ sha256Tag.isPrefixOf sig then false
    else
      let sigHash := sig.drop 7
      if ¬ isHex64 sigHash then false
      else nodeTimingSafeEqual (hexDecode sigHash) (hexDecode (hmacHex secret payload))

theorem nodeTimingSafeEqual_eq_true (a b : List Nat) :
    nodeTimingSafeEqual a b = true ↔ a = b := by
  unfold nodeTimingSafeEqual
  by_cases h : a.length = b.length
  · simp [h]
  · simp only [h, if_false]
    constructor
    · intro hf; exact absurd hf (by simp)
    · intro hab; exact absurd (congrArg List.length hab) h

/-- C2: the verifier returns `true` exactly when the payload and secret
are non-empty, the signature is `sha256=` followed by a 64-character
hex digest, and that digest decodes to the same bytes as the
HMAC-SHA-256 hex digest of the payload under the secret; every other
input yields `false`. -/
theorem sha256Tag_drop (t : List Char) : (sha256Tag ++ t).drop 7 = t := by
  have h7 : sha256Tag.length = 7 := by rfl
  rw [← h7]
  exact List.drop_left sha256Tag t

theorem claim_C2 (hmacHex : List Char → List Char → List Char)
    (payload secret : List Char) (signature : Option (List Char)) :
    verifyWebhookSignature hmacHex payload signature secret = true ↔
      payload ≠ [] ∧ secret ≠ [] ∧
      ∃ h, signature = some (sha256Tag ++ h) ∧ isHex64 h = true ∧
        hexDecode h = hexDecode (hmacHex secret payload) := by
  cases signature with
  | none => simp [verifyWebhookSignature]
  | some sig =>
    simp only [verifyWebhookSignature]
    constructor
    · intro hv
      split_ifs at hv with h1 h2 h3 h4 h5
      obtain ⟨t, ht⟩ := List.isPrefixOf_iff_prefix.mp h4
      refine ⟨h1, h3, t, by rw [ht], ?_, ?_⟩
      · rw [← ht, sha256Tag_drop] at h5
        exact h5
      · have hdec := (nodeTimingSafeEqual_eq_true _ _).mp hv
        rw [← ht, sha256Tag_drop] at hdec
        exact hdec
    · rintro ⟨hp, hs, t, hsome, hhex, hdec⟩
      obtain rfl : sig = sha256Tag ++ t := Option.some.inj hsome
      have hsig : sha256Tag ++ t ≠ [] := by simp [sha256Tag]
      rw [if_neg hp, if_neg hsig, if_neg hs,
        if_neg (not_not_intro (List.isPrefixOf_iff_prefix.mpr ⟨t, rfl⟩)),
        sha256Tag_drop,
        if_neg (not_not_intro hhex)]
      exact (nodeTimingSafeEqual_eq_true _ _).mpr hdec

/-! ### Double-submit CSRF validation (src/unnamed/part_013)

`timingSafeEqual` is the hand-written Edge-runtime loop: XOR each pair
of char codes, OR the results together, and compare with zero.
`validateDoubleSubmitCSRF` skips validation only for the literal
method "GET"; absent (or empty — JavaScript falsy) header/cookie
values fail. -/

def timingSafeEqual (a b : List Char) : Bool :=
  if a.length ≠ b.length then false
  else decide ((List.zipWith (fun c d => c.toNat ^^^ d.toNat) a b).foldl (· ||| ·) 0 = 0)

def validateDoubleSubmitCSRF (method : String)
    (headerToken cookieToken : Option (List Char)) : Bool :=
  if method = "GET" then true
  else
    match headerToken, cookieToken with
    | some h, some c =>
      if h = [] ∨ c = [] then false else timingSafeEqual h c
    | _, _ => false

theorem foldl_lor_eq_zero (l : List Nat) (acc : Nat) :
    l.foldl (· ||| ·) acc = 0 ↔ acc = 0 ∧ ∀ x ∈ l, x = 0 := by
  induction l generalizing acc with
  | nil => simp
  | cons x xs ih =>
    simp only [List.foldl_cons, ih, List.mem_cons]
    constructor
    · rintro ⟨hax, hall⟩
      have hx : acc = 0 ∧ x = 0 := by
        constructor
        · apply Nat.eq_of_testBit_eq
          intro i
          have := congrArg (fun n => Nat.testBit n i) hax
          simp only [Nat.testBit_or] at this
          simp only [Nat.zero_testBit] at this ⊢
          exact (Bool.or_eq_false_iff.mp this).1
        · apply Nat.eq_of_testBit_eq
          intro i
          have := congrArg (fun n => Nat.testBit n i) hax
          simp only [Nat.testBit_or] at this
          simp only [Nat.zero_testBit] at this ⊢
          exact (Bool.or_eq_false_iff.mp this).2
      refine ⟨hx.1, ?_⟩
      intro y hy
      rcases hy with rfl | hy
      · exact hx.2
      · exact hall y hy
    · rintro ⟨rfl, hall⟩
      have hx : x = 0 := hall x (Or.inl rfl)
      subst hx
      exact ⟨rfl, fun y hy => hall y (Or.inr hy)⟩

theorem char_toNat_inj (c d : Char) (h : c.toNat = d.toNat) : c = d := by
  have hv : c.val = d.val := UInt32.toNat.inj h
  cases c; cases d; simp_all

theorem zipWith_xor_all_zero (a b : List Char) (hl : a.length = b.length)
    (hall : ∀ x ∈ List.zipWith (fun c d => c.toNat ^^^ d.toNat) a b, x = 0) :
    a = b := by
  induction a generalizing b with
  | nil =>
    cases b with
    | nil => rfl
    | cons y ys => simp at hl
  | cons x xs ih =>
    cases b with
    | nil => simp at hl
    | cons y ys =>
      simp only [List.zipWith_cons_cons, List.mem_cons, forall_eq_or_imp] at hall
      have hxy : x = y := char_toNat_inj x y (Nat.xor_eq_zero.mp hall.1)
      subst hxy
      have hl' : xs.length = ys.length := by simpa using hl
      exact congrArg (x :: ·) (ih ys hl' hall.2)

theorem timingSafeEqual_eq_true (a b : List Char) :
    timingSafeEqual a b = true ↔ a = b := by
  unfold timingSafeEqual
  by_cases hl : a.length = b.length
  · simp only [hl, ne_eq, not_true_eq_false, if_false, decide_eq_true_eq]
    rw [foldl_lor_eq_zero]
    simp only [true_and]
    constructor
    · intro hall
      exact zipWith_xor_all_zero a b hl hall
    · rintro rfl
      have hself : ∀ l : List Char,
          ∀ x ∈ List.zipWith (fun c d => c.toNat ^^^ d.toNat) l l, x = 0 := by
        intro l
        induction l with
        | nil => intro x hx; simp at hx
        | cons y ys ih =>
          intro x hx
          simp only [List.zipWith_cons_cons, List.mem_cons] at hx
          rcases hx with rfl | hx
          · simp
          · exact ih x hx
      exact hself a
  · simp only [hl, ne_eq, not_false_iff, if_true]
    constructor
    · intro hfalse; exact absurd hfalse (by simp)
    · intro hab; exact absurd (congrArg List.length hab) hl

/-- C3 as stated is false for non-GET side-effect-free methods: a HEAD
request with no CSRF cookie and no header is rejected, though the
claim says safe methods always pass. -/
theorem claim_C3_counterexample :
    validateDoubleSubmitCSRF "HEAD" none none = false := rfl

/-- C3 (amended): only the literal method GET bypasses validation; every
other method (side-effect-free or not) passes exactly when both the
header and the cookie value are present, non-empty, and equal. -/
theorem claim_C3 (method : String)
    (headerToken cookieToken : Option (List Char)) :
    validateDoubleSubmitCSRF method headerToken cookieToken = true ↔
      (method = "GET" ∨
        ∃ s, headerToken = some s ∧ cookieToken = some s ∧ s ≠ []) := by
  unfold validateDoubleSubmitCSRF
  by_cases hm : method = "GET"
  · simp [hm]
  · rw [if_neg hm]
    cases headerToken with
    | none => simp [hm]
    | some h =>
      cases cookieToken with
      | none => simp [hm]
      | some c =>
        show (if h = [] ∨ c = [] then false else timingSafeEqual h c) = true ↔
          method = "GET" ∨ ∃ s, some h = some s ∧ some c = some s ∧ s ≠ []
        by_cases he : h = [] ∨ c = []
        · rw [if_pos he]
          constructor
          · intro hf; exact absurd hf Bool.false_ne_true
          · rintro (hg | ⟨s, hh, hc, hs⟩)
            · exact absurd hg hm
            · obtain rfl : h = s := Option.some.inj hh
              obtain rfl : c = h := Option.some.inj hc
              rcases he with rfl | rfl <;> exact absurd rfl hs
        · rw [if_neg he, timingSafeEqual_eq_true]
          push_neg at he
          constructor
          · intro heq; exact Or.inr ⟨h, rfl, by rw [heq], he.1⟩
          · rintro (hg | ⟨s, hh, hc, hs⟩)
            · exact absurd hg hm
            · obtain rfl : h = s := Option.some.inj hh
              exact (Option.some.inj hc).symm

/-! ### Sliding-window rate limiter (src/unnamed/part_011, `checkRateLimit`)

The in-memory store is an association list keyed by the caller
fingerprint.  `checkRateLimit` first sweeps expired entries (deleted
when `now > resetTime`), then: no entry → initialize `count = 1` with a
fresh window; window elapsed (`now > resetTime`) → reset to `count = 1`;
`count >= maxRequests` → deny with `retryAfter = ceil((resetTime - now)
/ 1000)` and no store mutation; otherwise increment. -/

structure RateLimitEntry where
  count : Nat
  resetTime : Nat
  lastRequest : Nat
deriving DecidableEq, Repr

structure RateLimitConfig where
  windowMs : Nat
  maxRequests : Nat
deriving DecidableEq, Repr

structure RateLimitResult where
  allowed : Bool
  remaining : Nat
  resetTime : Nat
  retryAfter : Option Nat
deriving DecidableEq, Repr

abbrev RateLimitStore := List (String × RateLimitEntry)

def rlGet (store : RateLimitStore) (key : String) : Option RateLimitEntry :=
  match store.find? (fun p => p.1 == key) with
  | none => none
  | some p => some p.2

def rlSet (store : RateLimitStore) (key : String) (v : RateLimitEntry) :
    RateLimitStore :=
  match store with
  | [] => [(key, v)]
  | (k, w) :: rest =>
    if k = key then (key, v) :: rest else (k, w) :: rlSet rest key v

def cleanupExpiredEntries (now : Nat) (store : RateLimitStore) : RateLimitStore :=
  store.filter fun p => !(p.2.resetTime < now)

def checkRateLimit (cfg : RateLimitConfig) (key : String)
    (store : RateLimitStore) (now : Nat) : RateLimitResult × RateLimitStore :=
  let store1 := cleanupExpiredEntries now store
  match rlGet store1 key with
  | none =>
    (⟨true, cfg.maxRequests - 1, now + cfg.windowMs, none⟩,
     rlSet store1 key ⟨1, now + cfg.windowMs, now⟩)
  | some entry =>
    if entry.resetTime < now then
      (⟨true, cfg.maxRequests - 1, now + cfg.windowMs, none⟩,
       rlSet store1 key ⟨1, now + cfg.windowMs, now⟩)
    else if cfg.maxRequests ≤ entry.count then
      (⟨false, 0, entry.resetTime, some ((entry.resetTime - now + 999) / 1000)⟩,
       store1)
    else
      (⟨true, cfg.maxRequests - (entry.count + 1), entry.resetTime, none⟩,
       rlSet store1 key ⟨entry.count + 1, entry.resetTime, now⟩)

/-- A trace of `checkRateLimit` calls for one key, threading the store. -/
def rlRun (cfg : RateLimitConfig) (key : String) :
    RateLimitStore → List Nat → List RateLimitResult × RateLimitStore
  | st, [] => ([], st)
  | st, t :: ts =>
    let step := checkRateLimit cfg key st t
    let rest := rlRun cfg key step.2 ts
    (step.1 :: rest.1, rest.2)

theorem rlRun_nil (cfg : RateLimitConfig) (key : String) (st : RateLimitStore) :
    rlRun cfg key st [] = ([], st) := rfl

theorem rlRun_cons (cfg : RateLimitConfig) (key : String) (st : RateLimitStore)
    (t : Nat) (ts : List Nat) :
    rlRun cfg key st (t :: ts) =
      ((checkRateLimit cfg key st t).1 ::
        (rlRun cfg key (checkRateLimit cfg key st t).2 ts).1,
       (rlRun cfg key (checkRateLimit cfg key st t).2 ts).2) := rfl

theorem checkRateLimit_empty (cfg : RateLimitConfig) (key : String) (t : Nat) :
    checkRateLimit cfg key [] t =
      (⟨true, cfg.maxRequests - 1, t + cfg.windowMs, none⟩,
       [(key, ⟨1, t + cfg.windowMs, t⟩)]) := rfl

theorem checkRateLimit_active (cfg : RateLimitConfig) (key : String)
    (c R l t : Nat) (ht : t < R) :
    checkRateLimit cfg key [(key, ⟨c, R, l⟩)] t =
      if cfg.maxRequests ≤ c then
        (⟨false, 0, R, some ((R - t + 999) / 1000)⟩, [(key, ⟨c, R, l⟩)])
      else
        (⟨true, cfg.maxRequests - (c + 1), R, none⟩, [(key, ⟨c + 1, R, t⟩)]) := by
  unfold checkRateLimit cleanupExpiredEntries rlGet rlSet
  have hRt : ¬ R < t := Nat.lt_asymm ht
  simp [hRt, List.find?]

theorem checkRateLimit_rollover (cfg : RateLimitConfig) (key : String)
    (e : RateLimitEntry) (t : Nat) (ht : e.resetTime < t) :
    checkRateLimit cfg key [(key, e)] t =
      (⟨true, cfg.maxRequests - 1, t + cfg.windowMs, none⟩,
       [(key, ⟨1, t + cfg.windowMs, t⟩)]) := by
  unfold checkRateLimit cleanupExpiredEntries rlGet rlSet
  simp [ht]

theorem retryAfter_pos (R t : Nat) (ht : t < R) : 0 < (R - t + 999) / 1000 := by
  have h1 : 1 ≤ R - t := by omega
  have : (1 : Nat) * 1000 ≤ R - t + 999 := by omega
  exact Nat.lt_of_lt_of_le (by norm_num)
    ((Nat.le_div_iff_mul_le (by norm_num)).mpr this)

theorem rlRun_window (cfg : RateLimitConfig) (key : String) (R : Nat)
    (ts : List Nat) : ∀ (c l : Nat), 0 < c → c ≤ cfg.maxRequests →
    (∀ t ∈ ts, t < R) →
    (∀ i res, (rlRun cfg key [(key, ⟨c, R, l⟩)] ts).1[i]? = some res →
      res.allowed = decide (c + i < cfg.maxRequests)) ∧
    (∀ i res, (rlRun cfg key [(key, ⟨c, R, l⟩)] ts).1[i]? = some res →
      cfg.maxRequests ≤ c + i →
      ∃ q, res.retryAfter = some q ∧ 0 < q) ∧
    (∃ l2, (rlRun cfg key [(key, ⟨c, R, l⟩)] ts).2 =
      [(key, ⟨min (c + ts.length) cfg.maxRequests, R, l2⟩)]) := by
  induction ts with
  | nil =>
    intro c l hc hcN hts
    refine ⟨?_, ?_, ⟨l, ?_⟩⟩
    · intro i res hres; rw [rlRun_nil] at hres; simp at hres
    · intro i res hres; rw [rlRun_nil] at hres; simp at hres
    · simp [rlRun_nil, Nat.min_eq_left hcN]
  | cons t ts ih =>
    intro c l hc hcN hts
    have ht : t < R := hts t (List.mem_cons_self t ts)
    have hts' : ∀ u ∈ ts, u < R := fun u hu => hts u (List.mem_cons_of_mem t hu)
    by_cases hmax : cfg.maxRequests ≤ c
    · have hstep : checkRateLimit cfg key [(key, ⟨c, R, l⟩)] t =
          (⟨false, 0, R, some ((R - t + 999) / 1000)⟩, [(key, ⟨c, R, l⟩)]) := by
        rw [checkRateLimit_active cfg key c R l t ht, if_pos hmax]
      have h1 : (rlRun cfg key [(key, ⟨c, R, l⟩)] (t :: ts)).1 =
          (⟨false, 0, R, some ((R - t + 999) / 1000)⟩ : RateLimitResult) ::
            (rlRun cfg key [(key, ⟨c, R, l⟩)] ts).1 := by
        rw [rlRun_cons, hstep]
      have h2 : (rlRun cfg key [(key, ⟨c, R, l⟩)] (t :: ts)).2 =
          (rlRun cfg key [(key, ⟨c, R, l⟩)] ts).2 := by
        rw [rlRun_cons, hstep]
      obtain ⟨ha, hr, hst⟩ := ih c l hc hcN hts'
      refine ⟨?_, ?_, ?_⟩
      · intro i res hres
        rw [h1] at hres
        cases i with
        | zero =>
          rw [List.getElem?_cons_zero] at hres
          obtain rfl : _ = res := Option.some.inj hres
          show (false : Bool) = decide (c + 0 < cfg.maxRequests)
          symm
          rw [decide_eq_false_iff_not]
          omega
        | succ j =>
          rw [List.getElem?_cons_succ] at hres
          have hthis := ha j res hres
          rw [hthis]
          have e1 : decide (c + j < cfg.maxRequests) = false := by
            rw [decide_eq_false_iff_not]; omega
          have e2 : decide (c + (j + 1) < cfg.maxRequests) = false := by
            rw [decide_eq_false_iff_not]; omega
          rw [e1, e2]
      · intro i res hres hge
        rw [h1] at hres
        cases i with
        | zero =>
          rw [List.getElem?_cons_zero] at hres
          obtain rfl : _ = res := Option.some.inj hres
          exact ⟨(R - t + 999) / 1000, rfl, retryAfter_pos R t ht⟩
        | succ j =>
          rw [List.getElem?_cons_succ] at hres
          exact hr j res hres (Nat.le_trans hmax (Nat.le_add_right c j))
      · obtain ⟨l2, hl2⟩ := hst
        refine ⟨l2, ?_⟩
        rw [h2, hl2]
        have hcount : min (c + ts.length) cfg.maxRequests =
            min (c + (t :: ts).length) cfg.maxRequests := by
          simp only [List.length_cons]; omega
        rw [hcount]
    · have hstep : checkRateLimit cfg key [(key, ⟨c, R, l⟩)] t =
          (⟨true, cfg.maxRequests - (c + 1), R, none⟩, [(key, ⟨c + 1, R, t⟩)]) := by
        rw [checkRateLimit_active cfg key c R l t ht, if_neg hmax]
      have h1 : (rlRun cfg key [(key, ⟨c, R, l⟩)] (t :: ts)).1 =
          (⟨true, cfg.maxRequests - (c + 1), R, none⟩ : RateLimitResult) ::
            (rlRun cfg key [(key, ⟨c + 1, R, t⟩)] ts).1 := by
        rw [rlRun_cons, hstep]
      have h2 : (rlRun cfg key [(key, ⟨c, R, l⟩)] (t :: ts)).2 =
          (rlRun cfg key [(key, ⟨c + 1, R, t⟩)] ts).2 := by
        rw [rlRun_cons, hstep]
      have hcN' : c + 1 ≤ cfg.maxRequests := by omega
      obtain ⟨ha, hr, hst⟩ := ih (c + 1) t (by omega) hcN' hts'
      refine ⟨?_, ?_, ?_⟩
      · intro i res hres
        rw [h1] at hres
        cases i with
        | zero =>
          rw [List.getElem?_cons_zero] at hres
          obtain rfl : _ = res := Option.some.inj hres
          show (true : Bool) = decide (c + 0 < cfg.maxRequests)
          symm
          rw [decide_eq_true_eq]
          omega
        | succ j =>
          rw [List.getElem?_cons_succ] at hres
          have hthis := ha j res hres
          have heq : c + 1 + j = c + (j + 1) := by omega
          rw [heq] at hthis
          exact hthis
      · intro i res hres hge
        rw [h1] at hres
        cases i with
        | zero =>
          exact absurd hge (by omega)
        | succ j =>
          rw [List.getElem?_cons_succ] at hres
          exact hr j res hres (by omega)
      · obtain ⟨l2, hl2⟩ := hst
        refine ⟨l2, ?_⟩
        rw [h2, hl2]
        have hcount : min (c + 1 + ts.length) cfg.maxRequests =
            min (c + (t :: ts).length) cfg.maxRequests := by
          simp only [List.length_cons]; omega
        rw [hcount]

/-- C4: starting from the empty store, the first `maxRequests` calls in
one window are allowed; each later call in the window is denied with a
positive `retryAfter` and leaves the stored count unchanged (it is
capped at `maxRequests`); and the first call after the window's reset
time has passed is allowed with the entry reset to `count = 1` and a
fresh window. -/
theorem claim_C4 (cfg : RateLimitConfig) (key : String)
    (hN : 0 < cfg.maxRequests) (t0 : Nat) (rest : List Nat)
    (hrest : ∀ t ∈ rest, t < t0 + cfg.windowMs) (t' : Nat)
    (ht' : t0 + cfg.windowMs < t') :
    (∀ i res, (rlRun cfg key [] (t0 :: rest)).1[i]? = some res →
      res.allowed = decide (i < cfg.maxRequests)) ∧
    (∀ i res, (rlRun cfg key [] (t0 :: rest)).1[i]? = some res →
      cfg.maxRequests ≤ i →
      ∃ q, res.retryAfter = some q ∧ 0 < q) ∧
    (∃ l2, (rlRun cfg key [] (t0 :: rest)).2 =
      [(key, ⟨min (rest.length + 1) cfg.maxRequests, t0 + cfg.windowMs, l2⟩)]) ∧
    (checkRateLimit cfg key (rlRun cfg key [] (t0 :: rest)).2 t').1.allowed =
        true ∧
    (checkRateLimit cfg key (rlRun cfg key [] (t0 :: rest)).2 t').2 =
      [(key, ⟨1, t' + cfg.windowMs, t'⟩)] := by
  have hw := rlRun_window cfg key (t0 + cfg.windowMs) rest 1 t0 (by omega) hN hrest
  obtain ⟨ha, hr, l2, hst⟩ := hw
  have h1 : (rlRun cfg key [] (t0 :: rest)).1 =
      (⟨true, cfg.maxRequests - 1, t0 + cfg.windowMs, none⟩ : RateLimitResult) ::
        (rlRun cfg key [(key, ⟨1, t0 + cfg.windowMs, t0⟩)] rest).1 := by
    rw [rlRun_cons, checkRateLimit_empty]
  have h2 : (rlRun cfg key [] (t0 :: rest)).2 =
      (rlRun cfg key [(key, ⟨1, t0 + cfg.windowMs, t0⟩)] rest).2 := by
    rw [rlRun_cons, checkRateLimit_empty]
  refine ⟨?_, ?_, ?_, ?_, ?_⟩
  · intro i res hres
    rw [h1] at hres
    cases i with
    | zero =>
      rw [List.getElem?_cons_zero] at hres
      obtain rfl : _ = res := Option.some.inj hres
      simp [hN]
    | succ j =>
      rw [List.getElem?_cons_succ] at hres
      have := ha j res hres
      have heq : 1 + j = j + 1 := by omega
      rw [heq] at this
      exact this
  · intro i res hres hge
    rw [h1] at hres
    cases i with
    | zero => exact absurd hge (by omega)
    | succ j =>
      rw [List.getElem?_cons_succ] at hres
      exact hr j res hres (by omega)
  · refine ⟨l2, ?_⟩
    rw [h2, hst]
    have hcomm : 1 + rest.length = rest.length + 1 := by omega
    rw [hcomm]
  · rw [h2, hst, checkRateLimit_rollover cfg key _ t' ht']
  · rw [h2, hst, checkRateLimit_rollover cfg key _ t' ht']

/-- Example configuration used by the C4 witness: 1-minute window,
2 requests allowed. -/
def cfgEx : RateLimitConfig := ⟨60000, 2⟩

theorem claim_C4_witness :
    ((rlRun cfgEx "k" [] (0 :: [1, 2, 3])).1[3]? =
      some ⟨false, 0, 60000, some 60⟩) ∧
    (false : Bool) = decide (3 < cfgEx.maxRequests) ∧
    (∃ q, (some 60 : Option Nat) = some q ∧ 0 < q) ∧
    (checkRateLimit cfgEx "k" (rlRun cfgEx "k" [] (0 :: [1, 2, 3])).2 60001).1.allowed =
      true := by
  have h := claim_C4 cfgEx "k" (by decide) 0 [1, 2, 3] (by decide) 60001 (by decide)
  have hg : (rlRun cfgEx "k" [] (0 :: [1, 2, 3])).1[3]? =
      some ⟨false, 0, 60000, some 60⟩ := by decide
  exact ⟨hg, h.1 3 _ hg, h.2.1 3 _ hg (by decide), h.2.2.2.1⟩

/-! ### Verification-code extraction (src/lib/whatsapp.ts, `extractVerificationCode`)

The source matches `message.match(/\b([A-Z0-9]{6})\b/gi)` and returns
the first match containing both a letter and a digit, uppercased.  The
embedding `regexSixRuns` walks the string exactly as the regex engine
does: a match may start only where the previous character is not a word
character (`\b`), requires six alphanumeric characters, and requires
the following character (if any) to be a non-word character (`\b`).
Matches cannot overlap (any interior position is preceded by a word
character), so collecting a match at every eligible position equals the
global regex scan. -/

def isWordChar (c : Char) : Bool := c.isAlpha || c.isDigit || c == '_'

def isAlnumChar (c : Char) : Bool := c.isAlpha || c.isDigit

def hasLetterAndDigit (r : List Char) : Bool :=
  r.any Char.isAlpha && r.any Char.isDigit

/-- Whether `/\b([A-Z0-9]{6})\b/i` matches at the current position;
`prev` records whether the preceding character is a word character. -/
def matchHere (prev : Bool) (s : List Char) : Bool :=
  !prev && decide ((s.take 6).length = 6) && (s.take 6).all isAlnumChar &&
    (match s.drop 6 with
     | [] => true
     | d :: _ => !isWordChar d)

/-- All matches of the global regex scan, left to right. -/
def regexSixRuns (prev : Bool) : List Char → List (List Char)
  | [] => []
  | c :: rest =>
    (if matchHere prev (c :: rest) then [(c :: rest).take 6] else []) ++
      regexSixRuns (isWordChar c) rest

/-- `extractVerificationCode` from src/lib/whatsapp.ts: collect all
matches, return the first containing both a letter and a digit,
uppercased; `null` when none qualifies. -/
def extractVerificationCode (message : List Char) : Option (List Char) :=
  match (regexSixRuns false message).find? hasLetterAndDigit with
  | none => none
  | some m => some (m.map Char.toUpper)

/-- Maximal runs of non-delimiter characters (the delimiter characters
are discarded), used for the claim-side descriptions. -/
def runsBy (delim : Char → Bool) : List Char → List Char → List (List Char)
  | cur, [] => if cur = [] then [] else [cur]
  | cur, c :: rest =>
    if delim c then (if cur = [] then [] else [cur]) ++ runsBy delim [] rest
    else runsBy delim (cur ++ [c]) rest

/-- Maximal word-character runs of the message. -/
def wordRuns (s : List Char) : List (List Char) :=
  runsBy (fun c => !isWordChar c) [] s

/-- Claim-side description (with the delimiter corrected from whitespace
to non-word characters): the 6-character alphanumeric runs. -/
def sixAlnumRuns (s : List Char) : List (List Char) :=
  (wordRuns s).filter fun r => decide (r.length = 6) && r.all isAlnumChar

def specExtract (s : List Char) : Option (List Char) :=
  ((sixAlnumRuns s).find? hasLetterAndDigit).map (List.map Char.toUpper)

def isSpaceChar (c : Char) : Bool :=
  c == ' ' || c == '\t' || c == '\n' || c == '\r'

/-- The claim as literally stated: whitespace-delimited tokens. -/
def wsSpecExtract (s : List Char) : Option (List Char) :=
  (((runsBy isSpaceChar [] s).filter fun r =>
      decide (r.length = 6) && r.all isAlnumChar).find? hasLetterAndDigit).map
    (List.map Char.toUpper)

theorem all_cons_split {p : Char → Bool} {c : Char} {l : List Char}
    (h : (c :: l).all p = true) : p c = true ∧ l.all p = true := by
  rw [List.all_cons, Bool.and_eq_true] at h
  exact h

theorem length_dropWhile_le (p : Char → Bool) :
    ∀ l : List Char, (l.dropWhile p).length ≤ l.length := by
  intro l
  induction l with
  | nil => simp
  | cons c cs ih =>
    rw [List.dropWhile_cons]
    by_cases h : p c = true
    · rw [if_pos h]
      exact Nat.le_trans ih (by simp)
    · rw [if_neg h]

theorem isAlnumChar_eq_false (c : Char) (h : isWordChar c = false) :
    isAlnumChar c = false := by
  unfold isWordChar at h
  unfold isAlnumChar
  rcases Bool.or_eq_false_iff.mp h with ⟨h1, -⟩
  exact h1

theorem matchHere_prev (s : List Char) : matchHere true s = false := by
  unfold matchHere
  simp

theorem matchHere_nonword (prev : Bool) (c : Char) (s : List Char)
    (hc : isWordChar c = false) : matchHere prev (c :: s) = false := by
  unfold matchHere
  rw [List.take_succ_cons, List.all_cons, isAlnumChar_eq_false c hc]
  simp

/-- Walking through the interior of a word run produces no match, and the
`prev` flag at the following delimiter is irrelevant. -/
theorem regexSixRuns_inWord (rest : List Char) : ∀ tail : List Char,
    rest.all isWordChar = true →
    (∀ d ds, tail = d :: ds → isWordChar d = false) →
    regexSixRuns true (rest ++ tail) = regexSixRuns false tail := by
  induction rest with
  | nil =>
    intro tail _ htail
    cases tail with
    | nil => rfl
    | cons d ds =>
      have hd : isWordChar d = false := htail d ds rfl
      show regexSixRuns true (d :: ds) = regexSixRuns false (d :: ds)
      simp only [regexSixRuns, matchHere_prev, matchHere_nonword _ _ _ hd, hd,
        if_false, List.nil_append]
  | cons r rs ih =>
    intro tail hall htail
    rcases all_cons_split hall with ⟨hr, hrs⟩
    show regexSixRuns true (r :: (rs ++ tail)) = regexSixRuns false tail
    simp only [regexSixRuns, matchHere_prev, if_false, List.nil_append, hr]
    exact ih tail hrs htail

theorem matchHere_run (run tail : List Char)
    (hw : run.all isWordChar = true)
    (htail : ∀ d ds, tail = d :: ds → isWordChar d = false) :
    matchHere false (run ++ tail) =
      (decide (run.length = 6) && run.all isAlnumChar) := by
  rcases Nat.lt_trichotomy run.length 6 with hlt | heq | hgt
  · have hne : decide (run.length = 6) = false := by
      rw [decide_eq_false_iff_not]; omega
    rw [hne, Bool.false_and]
    cases tail with
    | nil =>
      unfold matchHere
      rw [List.append_nil]
      have htake : run.take 6 = run := List.take_of_length_le (by omega)
      rw [htake]
      have hlen : decide (run.length = 6) = false := hne
      rw [hlen]
      simp
    | cons d ds =>
      have hd : isWordChar d = false := htail d ds rfl
      unfold matchHere
      have htake : (run ++ d :: ds).take 6 =
          run ++ (d :: ds).take (6 - run.length) := by
        rw [List.take_append_eq_append_take, List.take_of_length_le (by omega)]
      rw [htake]
      have h6 : 6 - run.length = (6 - run.length - 1) + 1 := by omega
      rw [h6, List.take_succ_cons]
      have hall : (run ++ d :: List.take (6 - run.length - 1) ds).all isAlnumChar
          = false := by
        rw [List.all_append, List.all_cons, isAlnumChar_eq_false d hd]
        simp
      rw [hall]
      simp
  · have htake : (run ++ tail).take 6 = run := by
      rw [← heq, List.take_left]
    have hdrop : (run ++ tail).drop 6 = tail := by
      rw [← heq, List.drop_left]
    unfold matchHere
    rw [htake, hdrop, heq]
    cases tail with
    | nil => simp
    | cons d ds =>
      have hd : isWordChar d = false := htail d ds rfl
      simp [hd]
  · have hne : decide (run.length = 6) = false := by
      rw [decide_eq_false_iff_not]; omega
    rw [hne, Bool.false_and]
    unfold matchHere
    have hdrop : (run ++ tail).drop 6 = run.drop 6 ++ tail := by
      rw [List.drop_append_eq_append_drop]
      have : 6 - run.length = 0 := by omega
      rw [this, List.drop_zero]
    rw [hdrop]
    cases hd6 : run.drop 6 with
    | nil =>
      have : run.length ≤ 6 := by
        have := congrArg List.length hd6
        simp at this
        omega
      omega
    | cons e es =>
      have he : e ∈ run := List.drop_subset 6 run (by rw [hd6]; exact List.mem_cons_self e es)
      have hew : isWordChar e = true := by
        rw [List.all_eq_true] at hw
        exact hw e he
      simp [hew]

/-- A maximal word run at the head of the scan contributes exactly its
six-alphanumeric match (if it is one) and then the scan continues past
it. -/
theorem regexSixRuns_run (run tail : List Char) (hne : run ≠ [])
    (hw : run.all isWordChar = true)
    (htail : ∀ d ds, tail = d :: ds → isWordChar d = false) :
    regexSixRuns false (run ++ tail) =
      (if (decide (run.length = 6) && run.all isAlnumChar) = true
        then [run] else []) ++ regexSixRuns false tail := by
  cases run with
  | nil => exact absurd rfl hne
  | cons c rs =>
    rcases all_cons_split hw with ⟨hc, hrs⟩
    show regexSixRuns false (c :: (rs ++ tail)) = _
    simp only [regexSixRuns]
    rw [show (c :: (rs ++ tail)) = (c :: rs) ++ tail from rfl]
    rw [matchHere_run (c :: rs) tail hw htail, hc]
    rw [regexSixRuns_inWord rs tail hrs htail]
    by_cases hsix : (decide ((c :: rs).length = 6) && (c :: rs).all isAlnumChar) = true
    · rw [if_pos hsix, if_pos hsix]
      have htake : ((c :: rs) ++ tail).take 6 = c :: rs := by
        have h6 : (c :: rs).length = 6 := by
          rw [Bool.and_eq_true] at hsix
          exact of_decide_eq_true hsix.1
        rw [← h6, List.take_left]
      rw [htake]
    · rw [if_neg hsix, if_neg hsix]

theorem runsBy_run (delim : Char → Bool) (run : List Char) :
    ∀ (cur tail : List Char),
    run.all (fun c => !delim c) = true →
    (∀ d ds, tail = d :: ds → delim d = true) →
    cur ++ run ≠ [] →
    runsBy delim cur (run ++ tail) = (cur ++ run) :: runsBy delim [] tail := by
  induction run with
  | nil =>
    intro cur tail _ htail hcur
    rw [List.append_nil] at hcur ⊢
    cases tail with
    | nil =>
      show (if cur = [] then [] else [cur]) = [cur] ++ _
      rw [if_neg hcur]
      rfl
    | cons d ds =>
      have hd : delim d = true := htail d ds rfl
      show runsBy delim cur (d :: ds) = cur :: runsBy delim [] (d :: ds)
      simp only [runsBy, hd, if_true, if_neg hcur]
      rfl
  | cons r rs ih =>
    intro cur tail hall htail hcur
    rcases all_cons_split hall with ⟨hr, hrs⟩
    have hr' : delim r = false := by
      cases h : delim r
      · rfl
      · rw [h] at hr; exact absurd hr (by simp)
    show runsBy delim cur (r :: (rs ++ tail)) = _
    simp only [runsBy, hr', if_false]
    have := ih (cur ++ [r]) tail hrs htail (by simp)
    rw [this]
    simp

theorem regex_eq_runs : ∀ (s : List Char),
    regexSixRuns false s =
      (wordRuns s).filter fun r => decide (r.length = 6) && r.all isAlnumChar
  | [] => rfl
  | c :: s' => by
    by_cases hc : isWordChar c = true
    · have hrun : (c :: s').takeWhile isWordChar = c :: s'.takeWhile isWordChar := by
        simp [List.takeWhile_cons, hc]
      have htl : (c :: s').dropWhile isWordChar = s'.dropWhile isWordChar := by
        simp [List.dropWhile_cons, hc]
      have hsplit : (c :: s') =
          (c :: s').takeWhile isWordChar ++ (c :: s').dropWhile isWordChar :=
        (List.takeWhile_append_dropWhile isWordChar (c :: s')).symm
      have hw : ((c :: s').takeWhile isWordChar).all isWordChar = true := by
        rw [List.all_eq_true]
        intro x hx
        exact List.mem_takeWhile_imp hx
      have htail : ∀ d ds, (c :: s').dropWhile isWordChar = d :: ds →
          isWordChar d = false := by
        intro d ds hd
        have := List.head?_dropWhile_not isWordChar (c :: s')
        rw [hd] at this
        simpa using this
      have hne : (c :: s').takeWhile isWordChar ≠ [] := by
        rw [hrun]; simp
      have hlen : ((c :: s').dropWhile isWordChar).length < (c :: s').length := by
        rw [htl]
        have := length_dropWhile_le isWordChar s'
        simp
        omega
      have ihtail := regex_eq_runs ((c :: s').dropWhile isWordChar)
      calc regexSixRuns false (c :: s')
          = regexSixRuns false ((c :: s').takeWhile isWordChar ++
              (c :: s').dropWhile isWordChar) := by rw [← hsplit]
        _ = (if (decide (((c :: s').takeWhile isWordChar).length = 6) &&
              ((c :: s').takeWhile isWordChar).all isAlnumChar) = true
              then [(c :: s').takeWhile isWordChar] else []) ++
              regexSixRuns false ((c :: s').dropWhile isWordChar) :=
            regexSixRuns_run _ _ hne hw htail
        _ = _ := by
            rw [ihtail]
            have hruns : wordRuns (c :: s') =
                (c :: s').takeWhile isWordChar ::
                  wordRuns ((c :: s').dropWhile isWordChar) := by
              unfold wordRuns
              conv_lhs => rw [hsplit]
              refine runsBy_run _ _ [] _ ?_ ?_ ?_
              · rw [List.all_eq_true]
                intro x hx
                rw [List.all_eq_true] at hw
                rw [hw x hx]
                rfl
              · intro d ds hd
                rw [htail d ds hd]
                rfl
              · simpa using hne
            rw [hruns, List.filter_cons]
            by_cases hsix : (decide (((c :: s').takeWhile isWordChar).length = 6) &&
                ((c :: s').takeWhile isWordChar).all isAlnumChar) = true
            · rw [if_pos hsix, if_pos hsix]; rfl
            · rw [if_neg hsix, if_neg hsix]; rfl
    · have hc' : isWordChar c = false := by
        cases h : isWordChar c
        · rfl
        · exact absurd h hc
      have ihs := regex_eq_runs s'
      show regexSixRuns false (c :: s') = _
      simp only [regexSixRuns, matchHere_nonword _ _ _ hc', if_false,
        List.nil_append, hc']
      rw [ihs]
      unfold wordRuns
      show _ = List.filter _ (runsBy _ [] (c :: s'))
      simp only [runsBy, hc', Bool.not_false, if_true]
      rfl
termination_by s => s.length

/-- C5 as stated is false: the runs are delimited by regex word
boundaries, not whitespace.  In `"x.ab12c3"` the only
whitespace-delimited run is the 8-character `"x.ab12c3"`, so the claim
predicts no match, yet the code extracts `"AB12C3"` across the dot. -/
theorem claim_C5_counterexample :
    extractVerificationCode "x.ab12c3".toList = some "AB12C3".toList ∧
    wsSpecExtract "x.ab12c3".toList = none := by
  constructor
  · rfl
  · rfl

/-- C5 (amended): the extractor returns, uppercased, the first
word-boundary-delimited (non-word characters or the ends of the
message, not only whitespace) 6-character alphanumeric run containing
both a letter and a digit, and no match when no such run exists; the
three examples from the claim hold as stated. -/
theorem claim_C5 (s : List Char) :
    extractVerificationCode s = specExtract s ∧
    extractVerificationCode "please VERIFY ab12c3 now".toList =
      some "AB12C3".toList ∧
    extractVerificationCode "PLEASE VERIFY".toList = none ∧
    extractVerificationCode "123456".toList = none := by
  refine ⟨?_, rfl, rfl, rfl⟩
  unfold extractVerificationCode specExtract sixAlnumRuns
  rw [regex_eq_runs s]
  cases ((wordRuns s).filter fun r =>
      decide (r.length = 6) && r.all isAlnumChar).find? hasLetterAndDigit with
  | none => rfl
  | some m => rfl

/-! ### Password validation (src/lib/auth-utils.ts, `validatePassword`)

The set-password route uses the auth-utils variant, which accumulates
error strings and reports `isValid = errors.length === 0`. -/

structure PasswordValidation where
  isValid : Bool
  errors : List String
deriving DecidableEq, Repr

def hasRepeatQuad : List Char → Bool
  | c1 :: c2 :: c3 :: c4 :: rest =>
    (c1 == c2 && c2 == c3 && c3 == c4) || hasRepeatQuad (c2 :: c3 :: c4 :: rest)
  | _ => false

def validatePassword (password : List Char) : PasswordValidation :=
  if password = [] then ⟨false, ["Password is required"]⟩
  else
    let lower := password.map Char.toLower
    let errors :=
      (if password.length < 6 then ["Password must be at least 6 characters long"] else []) ++
      (if 128 < password.length then ["Password must be less than 128 characters"] else []) ++
      (if password.any Char.isAlpha then [] else ["Password must contain at least one letter"]) ++
      (if "password".toList <:+: lower then ["Password cannot contain the word password"] else []) ++
      (if "123456".toList <:+: lower then ["Password cannot contain sequential numbers"] else []) ++
      (if hasRepeatQuad password then ["Password cannot contain more than 3 repeated characters"] else [])
    ⟨errors.isEmpty, errors⟩

/-! ### Set-password route (src/app/api/set-password/route.ts)

The handler: CSRF gate, auth-token gate (`verifySecureToken`),
password-strength gate, cross-session gate (the session's code must
equal the code in the request body), verified-and-unexpired
verification-record lookup, user upsert, and finally a fresh
`generateSecureToken` minted from the verification record's own
fields with `verified: true`.  Input sanitization and password hashing
are parameters; store reads/writes are injected through
`SetPasswordStore` (a failing update/insert is modelled by
`updateOk`/`insertedUserId`). -/

structure VerificationRecord where
  code : String
  name : String
  whatsapp_number : String
  verified : Bool
  verifiedAt : Option Nat
  expires_at : Nat
deriving DecidableEq, Repr

structure UserRow where
  id : String
  password_hash : String
deriving DecidableEq, Repr

inductive SetPasswordResult where
  | err (status : Nat)
  | ok (userId : String) (cookieToken : SignedJWT)
deriving DecidableEq, Repr

structure SetPasswordRequest where
  csrfValid : Bool
  authToken : Option SignedJWT
  password : String
  bodyCode : String

structure SetPasswordStore where
  verificationLookup : String → Option VerificationRecord
  userByPhone : String → Option UserRow
  updateOk : Bool
  insertedUserId : Option String

def setPasswordRoute (hmac : String → SignInput → Nat) (secret : String)
    (ttl now : Nat) (sanitize : String → String)
    (req : SetPasswordRequest) (store : SetPasswordStore) : SetPasswordResult :=
  if req.csrfValid = false then .err 403
  else match req.authToken with
  | none => .err 401
  | some tok =>
    match verifySecureToken hmac secret now tok with
    | none => .err 401
    | some sessionData =>
      let sp := sanitize req.password
      let sc := sanitize req.bodyCode
      if (validatePassword sp.toList).isValid = false then .err 400
      else if sessionData.code ≠ sc then .err 403
      else match store.verificationLookup sc with
        | none => .err 500
        | some vr =>
          let mint := generateSecureToken hmac secret ttl now
            ⟨vr.code, vr.name, vr.whatsapp_number, true⟩
          match store.userByPhone vr.whatsapp_number with
          | some u => if store.updateOk then .ok u.id mint else .err 500
          | none =>
            match store.insertedUserId with
            | some uid => .ok uid mint
            | none => .err 500

def sanitizeId : String → String := fun s => s

def vrEx : VerificationRecord :=
  ⟨"AB12C3", "Alice", "15551234567", true, some 500, 900000⟩

def setPwReqEx : SetPasswordRequest :=
  ⟨true,
   some (generateSecureToken hmacEx "secret" 3600 0
     ⟨"AB12C3", "Alice", "15551234567", true⟩),
   "abc123", "AB12C3"⟩

def setPwStoreEx : SetPasswordStore :=
  ⟨fun c => if c = "AB12C3" then some vrEx else none,
   fun _ => none, true, some "user-1"⟩

/-- C6 as stated is false: on a fully successful set-password call the
minted token's subject (`userId`) is the verification code `AB12C3`
itself, not a cryptographically random session identifier replacing
it.  (The random-session-id minting lives in the password-login route,
not in set-password.) -/
theorem claim_C6_counterexample :
    setPasswordRoute hmacEx "secret" 3600 1 sanitizeId setPwReqEx setPwStoreEx =
      .ok "user-1" (generateSecureToken hmacEx "secret" 3600 1
        ⟨"AB12C3", "Alice", "15551234567", true⟩) ∧
    (generateSecureToken hmacEx "secret" 3600 1
      ⟨"AB12C3", "Alice", "15551234567", true⟩).body.payload.userId = "AB12C3" := by
  constructor
  · rfl
  · rfl

/-- C6 (amended): on every successful set-password call the minted
session token comes from the verification record found for the
(sanitized) request code, so its subject is that verification code
itself (with `verified = true` in the claims) — no random session
identifier is substituted. -/
theorem claim_C6 (hmac : String → SignInput → Nat) (secret : String)
    (ttl now : Nat) (sanitize : String → String)
    (req : SetPasswordRequest) (store : SetPasswordStore)
    (uid : String) (tok : SignedJWT)
    (hok : setPasswordRoute hmac secret ttl now sanitize req store =
      .ok uid tok)
    (hcoh : ∀ c vr, store.verificationLookup c = some vr → vr.code = c) :
    ∃ vr, store.verificationLookup (sanitize req.bodyCode) = some vr ∧
      tok = generateSecureToken hmac secret ttl now
        ⟨vr.code, vr.name, vr.whatsapp_number, true⟩ ∧
      tok.body.payload.userId = sanitize req.bodyCode := by
  unfold setPasswordRoute at hok
  cases hcsrf : req.csrfValid with
  | false => simp only [hcsrf] at hok; simp at hok
  | true =>
    simp only [hcsrf] at hok
    rw [if_neg (by simp : ¬ (true = false))] at hok
    cases hauth : req.authToken with
    | none => simp only [hauth] at hok; simp at hok
    | some tok0 =>
      simp only [hauth] at hok
      cases hsess : verifySecureToken hmac secret now tok0 with
      | none => simp only [hsess] at hok; simp at hok
      | some sd =>
        simp only [hsess] at hok
        by_cases hpw : (validatePassword (sanitize req.password).toList).isValid = false
        · rw [if_pos hpw] at hok; simp at hok
        · rw [if_neg hpw] at hok
          by_cases hcode : sd.code ≠ sanitize req.bodyCode
          · rw [if_pos hcode] at hok; simp at hok
          · rw [if_neg hcode] at hok
            cases hvr : store.verificationLookup (sanitize req.bodyCode) with
            | none => simp only [hvr] at hok; simp at hok
            | some vr =>
              simp only [hvr] at hok
              refine ⟨vr, rfl, ?_⟩
              have htok : tok = generateSecureToken hmac secret ttl now
                  ⟨vr.code, vr.name, vr.whatsapp_number, true⟩ := by
                cases huser : store.userByPhone vr.whatsapp_number with
                | some u =>
                  simp only [huser] at hok
                  by_cases hupd : store.updateOk = true
                  · rw [if_pos hupd] at hok
                    injection hok with h1 h2
                    exact h2.symm
                  · rw [if_neg hupd] at hok; simp at hok
                | none =>
                  simp only [huser] at hok
                  cases hins : store.insertedUserId with
                  | none => simp only [hins] at hok; simp at hok
                  | some uid2 =>
                    simp only [hins] at hok
                    injection hok with h1 h2
                    exact h2.symm
              refine ⟨htok, ?_⟩
              rw [htok]
              show vr.code = sanitize req.bodyCode
              exact hcoh _ vr hvr

theorem claim_C6_witness :
    ∃ vr, setPwStoreEx.verificationLookup (sanitizeId "AB12C3") = some vr ∧
      generateSecureToken hmacEx "secret" 3600 1
          ⟨"AB12C3", "Alice", "15551234567", true⟩ =
        generateSecureToken hmacEx "secret" 3600 1
          ⟨vr.code, vr.name, vr.whatsapp_number, true⟩ ∧
      (generateSecureToken hmacEx "secret" 3600 1
          ⟨"AB12C3", "Alice", "15551234567", true⟩).body.payload.userId =
        sanitizeId "AB12C3" := by
  have h := claim_C6 hmacEx "secret" 3600 1 sanitizeId setPwReqEx setPwStoreEx
    "user-1"
    (generateSecureToken hmacEx "secret" 3600 1
      ⟨"AB12C3", "Alice", "15551234567", true⟩)
    (by rfl)
    (by
      intro c vr hvr
      simp only [setPwStoreEx] at hvr
      by_cases hc : c = "AB12C3"
      · rw [if_pos hc] at hvr
        cases hvr
        rw [hc]
        rfl
      · rw [if_neg hc] at hvr
        exact absurd hvr (by simp))
  exact h

/-! ### Verification-code generation (src/unnamed/part_014,
`generateVerificationCode`)

`customAlphabet('ABCDEFGHIJKLMNOPQRSTUVWXYZ0123456789', 6)` draws each
of the six output characters from the 36-character alphabet, selected
by the random source (modelled as `rand`, reduced into alphabet
range).  Nothing constrains the mix of letters and digits. -/

def codeAlphabet : List Char := "ABCDEFGHIJKLMNOPQRSTUVWXYZ0123456789".toList

def generateVerificationCode (rand : Nat → Nat) : List Char :=
  (List.range 6).map fun i => codeAlphabet.getD (rand i % 36) 'A'

/-- `validateVerificationCode` from src/lib/security.ts: requires
exactly six uppercase alphanumerics with at least one letter and one
digit; `none` models a thrown error. -/
def validateVerificationCode (code : List Char) : Option (List Char) :=
  if code = [] then none
  else if code.length ≠ 6 then none
  else if ¬ (code.all fun c => ('A' ≤ c ∧ c ≤ 'Z') ∨ ('0' ≤ c ∧ c ≤ '9')) then none
  else if ¬ (code.any fun c => 'A' ≤ c ∧ c ≤ 'Z') then none
  else if ¬ (code.any fun c => '0' ≤ c ∧ c ≤ '9') then none
  else some (code.map Char.toUpper)

/-- C7: the generator always yields six characters of the A–Z0–9
alphabet, but nothing forces a letter–digit mix: the random source
selecting index 0 six times yields `"AAAAAA"`, which has no digit, is
rejected by the project's own `validateVerificationCode`, and can
never be matched by `extractVerificationCode` — so the claim's
"at least one letter and at least one digit" is the intent and the
generator is the slip. -/
theorem claim_C7 :
    (∀ rand : Nat → Nat, (generateVerificationCode rand).length = 6 ∧
      (generateVerificationCode rand).all (fun c => codeAlphabet.contains c) = true) ∧
    generateVerificationCode (fun _ => 0) = "AAAAAA".toList ∧
    hasLetterAndDigit (generateVerificationCode (fun _ => 0)) = false ∧
    validateVerificationCode (generateVerificationCode (fun _ => 0)) = none ∧
    extractVerificationCode "Your code is AAAAAA today".toList = none ∧
    generateVerificationCode (fun i => 26 + i) = "012345".toList ∧
    hasLetterAndDigit (generateVerificationCode (fun i => 26 + i)) = false := by
  refine ⟨?_, rfl, rfl, rfl, rfl, rfl, rfl⟩
  intro rand
  constructor
  · simp [generateVerificationCode]
  · rw [List.all_eq_true]
    intro x hx
    rcases List.mem_map.mp hx with ⟨i, -, hxi⟩
    have hlt : rand i % 36 < codeAlphabet.length := by
      have : rand i % 36 < 36 := Nat.mod_lt _ (by norm_num)
      simpa [codeAlphabet] using this
    have hget : codeAlphabet.getD (rand i % 36) 'A' ∈ codeAlphabet := by
      rw [List.getD_eq_getElem _ _ hlt]
      exact List.getElem_mem hlt
    rw [← hxi]
    exact List.elem_eq_true_of_mem hget

/-! ### Webhook message processing and deduplication
(src/app/api/webhooks/whatsapp/route.ts, POST)

State past the signature gate: the `processedMessages` map
(message id → first-seen timestamp), the `messageRateLimit` map (which
stores both `from → timestamp` and `from_count → count` keys), and the
`verification_codes` table.  The handler short-circuits duplicates,
then applies the per-sender rate limit (window 60000 ms, max 5), then
marks the message processed, then extracts/validates/looks up the code
and flips `verified` on a valid, unexpired, unverified record.  Every
response in this path reports success. -/

abbrev NatMap := List (String × Nat)

def nmGet (m : NatMap) (k : String) : Option Nat :=
  (m.find? fun p => p.1 == k).map (fun p => p.2)

/-- `map.get(k) || 0`. -/
def nmGetD (m : NatMap) (k : String) : Nat := (nmGet m k).getD 0

def nmSet (m : NatMap) (k : String) (v : Nat) : NatMap :=
  match m with
  | [] => [(k, v)]
  | (k2, v2) :: rest =>
    if k2 = k then (k, v) :: rest else (k2, v2) :: nmSet rest k v

structure WebhookState where
  processed : NatMap
  rateLimit : NatMap
  codes : List VerificationRecord
deriving DecidableEq, Repr

structure InboundMessage where
  id : String
  sender : String
  text : List Char
deriving DecidableEq, Repr

structure Ack where
  success : Bool
  note : String
deriving DecidableEq, Repr

/-- `.eq('code', code).gt('expires_at', now).single()`. -/
def lookupCode (codes : List VerificationRecord) (code : String) (now : Nat) :
    Option VerificationRecord :=
  codes.find? fun r => r.code == code && decide (now < r.expires_at)

/-- `.update({verified: true, verified_at: now}).eq('code', code)`. -/
def markVerified (code : String) (now : Nat)
    (codes : List VerificationRecord) : List VerificationRecord :=
  codes.map fun r =>
    if r.code = code then { r with verified := true, verifiedAt := some now } else r

/-- The body processing after dedup/rate-limit bookkeeping: extraction,
format validation, lookup, and the single verified-flip mutation. -/
def processBody (st : WebhookState) (m : InboundMessage) (now : Nat) :
    Ack × WebhookState :=
  match extractVerificationCode m.text with
  | none => (⟨true, "no code"⟩, st)
  | some ec =>
    match validateVerificationCode ec with
    | none => (⟨true, "invalid format"⟩, st)
    | some code =>
      match lookupCode st.codes (String.mk code) now with
      | none => (⟨true, "invalid code"⟩, st)
      | some vr =>
        if vr.verified = true then (⟨true, "already verified"⟩, st)
        else (⟨true, "verified"⟩,
          { st with codes := markVerified (String.mk code) now st.codes })

def RATE_LIMIT_WINDOW : Nat := 60000

def MAX_MESSAGES_PER_MINUTE : Nat := 5

def processMessage (st : WebhookState) (m : InboundMessage) (now : Nat) :
    Ack × WebhookState :=
  if (nmGet st.processed m.id).isSome then (⟨true, "Duplicate ignored"⟩, st)
  else
    if 0 < nmGetD st.rateLimit m.sender ∧
        now - nmGetD st.rateLimit m.sender < RATE_LIMIT_WINDOW then
      if MAX_MESSAGES_PER_MINUTE ≤ nmGetD st.rateLimit (m.sender ++ "_count") then
        (⟨true, "Rate limited"⟩, st)
      else
        processBody
          { st with
            rateLimit := nmSet st.rateLimit (m.sender ++ "_count")
              (nmGetD st.rateLimit (m.sender ++ "_count") + 1),
            processed := nmSet st.processed m.id now } m now
    else
      processBody
        { st with
          rateLimit := nmSet (nmSet st.rateLimit m.sender now)
            (m.sender ++ "_count") 1,
          processed := nmSet st.processed m.id now } m now

/-- The periodic cleanup task (`setInterval`, every five minutes):
drops processed-message entries older than five minutes and rate-limit
entries older than one minute. -/
def sweepState (tg : Nat) (st : WebhookState) : WebhookState :=
  { st with
    processed := st.processed.filter fun p => !(p.2 < tg - 300000),
    rateLimit := st.rateLimit.filter fun p => !(p.2 < tg - 60000) }

theorem nmGet_set_self (m : NatMap) (k : String) (v : Nat) :
    nmGet (nmSet m k v) k = some v := by
  induction m with
  | nil => simp [nmSet, nmGet, List.find?]
  | cons p rest ih =>
    obtain ⟨k2, v2⟩ := p
    by_cases hk : k2 = k
    · simp [nmSet, hk, nmGet, List.find?]
    · simp only [nmSet, if_neg hk]
      have hne : (k2 == k) = false := by
        rw [beq_eq_false_iff_ne]
        exact hk
      simp only [nmGet, List.find?, hne]
      exact ih

theorem nmGet_filter (p : String × Nat → Bool) (m : NatMap) (k : String)
    (v : Nat) (hget : nmGet m k = some v) (hp : p (k, v) = true) :
    nmGet (m.filter p) k = some v := by
  induction m with
  | nil => simp [nmGet] at hget
  | cons q rest ih =>
    obtain ⟨k2, v2⟩ := q
    by_cases hk : k2 = k
    · subst hk
      simp only [nmGet, List.find?, beq_self_eq_true] at hget
      obtain rfl : v2 = v := by simpa using hget
      rw [List.filter_cons, hp]
      simp [nmGet, List.find?]
    · have hne : (k2 == k) = false := by
        rw [beq_eq_false_iff_ne]
        exact hk
      simp only [nmGet, List.find?, hne] at hget
      rw [List.filter_cons]
      by_cases hpq : p (k2, v2) = true
      · rw [hpq]
        simp only [nmGet, List.find?, hne]
        exact ih hget
      · rw [Bool.of_not_eq_true hpq]
        exact ih hget

theorem processBody_inv (st : WebhookState) (m : InboundMessage) (now : Nat) :
    (processBody st m now).1.success = true ∧
    (processBody st m now).2.processed = st.processed ∧
    (processBody st m now).2.rateLimit = st.rateLimit ∧
    ((processBody st m now).2.codes = st.codes ∨
      ∃ code, (processBody st m now).2.codes = markVerified code now st.codes) := by
  unfold processBody
  split
  · exact ⟨rfl, rfl, rfl, Or.inl rfl⟩
  · split
    · exact ⟨rfl, rfl, rfl, Or.inl rfl⟩
    · split
      · exact ⟨rfl, rfl, rfl, Or.inl rfl⟩
      · split
        · exact ⟨rfl, rfl, rfl, Or.inl rfl⟩
        · exact ⟨rfl, rfl, rfl, Or.inr ⟨_, rfl⟩⟩

theorem processMessage_dup (st2 : WebhookState) (m : InboundMessage) (t : Nat)
    (h : (nmGet st2.processed m.id).isSome = true) :
    processMessage st2 m t = (⟨true, "Duplicate ignored"⟩, st2) := by
  unfold processMessage
  rw [if_pos h]

def c8Store0 : WebhookState :=
  ⟨[], [("15551234567", 59000), ("15551234567_count", 5)],
   [⟨"AB12C3", "Alice", "15551234567", false, none, 900000⟩]⟩

def c8Msg : InboundMessage := ⟨"wamid.1", "15551234567", "AB12C3".toList⟩

/-- C8 as stated is false: when the first delivery is short-circuited by
the per-sender rate limiter it is never recorded in the
processed-messages set, so the second delivery of the same message id
(well within the retention window) is not detected there, and the two
deliveries perform zero verification-state mutations rather than
exactly one — even though the message carries a valid, unexpired,
unverified code and both deliveries are acknowledged with success. -/
theorem claim_C8_counterexample :
    lookupCode c8Store0.codes "AB12C3" 60000 =
      some ⟨"AB12C3", "Alice", "15551234567", false, none, 900000⟩ ∧
    (processMessage c8Store0 c8Msg 60000).1.success = true ∧
    (processMessage c8Store0 c8Msg 60000).2 = c8Store0 ∧
    nmGet (processMessage c8Store0 c8Msg 60000).2.processed c8Msg.id = none ∧
    (processMessage (processMessage c8Store0 c8Msg 60000).2 c8Msg 61000).1.success
      = true ∧
    (processMessage (processMessage c8Store0 c8Msg 60000).2 c8Msg 61000).2.codes =
      c8Store0.codes := by
  exact ⟨rfl, rfl, rfl, rfl, rfl, rfl⟩

/-- C8 (amended): for every authenticated delivery whose first
processing is not short-circuited by the per-sender rate limiter,
submitting the same message id twice produces two success
acknowledgements and at most one verification-state mutation (exactly
one when the text carries a valid, unexpired, unverified code): the
first call records the id, the second call is detected in the
processed-messages set and short-circuits with success before any
store mutation, and the recorded id survives the periodic sweep
throughout the five-minute retention window. -/
theorem claim_C8 (st : WebhookState) (m : InboundMessage) (t1 t2 : Nat)
    (hnew : nmGet st.processed m.id = none)
    (hrl : ¬ ((0 < nmGetD st.rateLimit m.sender ∧
        t1 - nmGetD st.rateLimit m.sender < RATE_LIMIT_WINDOW) ∧
      MAX_MESSAGES_PER_MINUTE ≤ nmGetD st.rateLimit (m.sender ++ "_count"))) :
    (processMessage st m t1).1.success = true ∧
    nmGet (processMessage st m t1).2.processed m.id = some t1 ∧
    (processMessage (processMessage st m t1).2 m t2).1 =
      ⟨true, "Duplicate ignored"⟩ ∧
    (processMessage (processMessage st m t1).2 m t2).2 =
      (processMessage st m t1).2 ∧
    ((processMessage st m t1).2.codes = st.codes ∨
      ∃ code, (processMessage st m t1).2.codes = markVerified code t1 st.codes) ∧
    (∀ ec code vr, extractVerificationCode m.text = some ec →
      validateVerificationCode ec = some code →
      lookupCode st.codes (String.mk code) t1 = some vr →
      vr.verified = false →
      (processMessage st m t1).2.codes =
        markVerified (String.mk code) t1 st.codes) ∧
    (∀ tg, tg ≤ t1 + 300000 →
      nmGet (sweepState tg (processMessage st m t1).2).processed m.id =
        some t1) := by
  have hmain : ∃ stm : WebhookState,
      processMessage st m t1 = processBody stm m t1 ∧
      stm.processed = nmSet st.processed m.id t1 ∧
      stm.codes = st.codes := by
    unfold processMessage
    rw [hnew]
    rw [if_neg (by simp : ¬ ((none : Option Nat).isSome = true))]
    by_cases hwin : (0 < nmGetD st.rateLimit m.sender ∧
        t1 - nmGetD st.rateLimit m.sender < RATE_LIMIT_WINDOW)
    · have hcnt : ¬ (MAX_MESSAGES_PER_MINUTE ≤
          nmGetD st.rateLimit (m.sender ++ "_count")) :=
        fun hc => hrl ⟨hwin, hc⟩
      rw [if_pos hwin, if_neg hcnt]
      exact ⟨_, rfl, rfl, rfl⟩
    · rw [if_neg hwin]
      exact ⟨_, rfl, rfl, rfl⟩
  obtain ⟨stm, hpm, hproc, hcodes⟩ := hmain
  have hinv := processBody_inv stm m t1
  have hgetid : nmGet (processMessage st m t1).2.processed m.id = some t1 := by
    rw [hpm, hinv.2.1, hproc, nmGet_set_self]
  have hdup : processMessage (processMessage st m t1).2 m t2 =
      (⟨true, "Duplicate ignored"⟩, (processMessage st m t1).2) :=
    processMessage_dup _ m t2 (by rw [hgetid]; rfl)
  refine ⟨?_, hgetid, ?_, ?_, ?_, ?_, ?_⟩
  · rw [hpm]; exact hinv.1
  · rw [hdup]
  · rw [hdup]
  · rw [hpm]
    rcases hinv.2.2.2 with hsame | ⟨code, hmut⟩
    · exact Or.inl (by rw [hsame, hcodes])
    · exact Or.inr ⟨code, by rw [hmut, hcodes]⟩
  · intro ec code vr hec hval hlk hv
    rw [hpm]
    unfold processBody
    simp only [hec, hval, hcodes, hlk]
    rw [if_neg (by rw [hv]; simp)]
  · intro tg htg
    show nmGet ((processMessage st m t1).2.processed.filter
      fun p => !(p.2 < tg - 300000)) m.id = some t1
    apply nmGet_filter _ _ _ _ hgetid
    have hle : ¬ (t1 < tg - 300000) := by omega
    simp [hle]

def c8StoreW : WebhookState :=
  ⟨[], [], [⟨"AB12C3", "Alice", "15551234567", false, none, 900000⟩]⟩

theorem claim_C8_witness :
    (processMessage c8StoreW c8Msg 1000).1.success = true ∧
    nmGet (processMessage c8StoreW c8Msg 1000).2.processed c8Msg.id =
      some 1000 ∧
    (processMessage (processMessage c8StoreW c8Msg 1000).2 c8Msg 2000).1 =
      ⟨true, "Duplicate ignored"⟩ ∧
    (processMessage (processMessage c8StoreW c8Msg 1000).2 c8Msg 2000).2 =
      (processMessage c8StoreW c8Msg 1000).2 := by
  have h := claim_C8 c8StoreW c8Msg 1000 2000 rfl (by decide)
  exact ⟨h.1, h.2.1, h.2.2.1, h.2.2.2.1⟩

/-! ### CSRF token issuance (src/app/api/csrf-token/route.ts GET and
src/unnamed/part_013, `generateCSRFToken`)

`generateCSRFToken` hex-encodes 64 random bytes.  The GET handler
rejects requests without a user agent, computes a session id (header,
`auth_token` cookie, or random hex — the value is never used), then
always calls `generateCSRFToken()` and sets the result as the
`csrf-token` cookie; it never reads an existing `csrf-token` cookie. -/

def hexDigitChar (n : Nat) : Char :=
  if n < 10 then Char.ofNat ('0'.toNat + n) else Char.ofNat ('a'.toNat + (n - 10))

/-- `Array.from(array, byte => byte.toString(16).padStart(2, '0')).join('')`
over 64 random bytes. -/
def generateCSRFToken (bytes : List Nat) : List Char :=
  (bytes.map fun b => [hexDigitChar (b % 256 / 16), hexDigitChar (b % 256 % 16)]).flatten

/-- The GET handler of src/app/api/csrf-token/route.ts.  Result: `none`
for an error response, otherwise the JSON token and the `Set-Cookie`
value.  `existingCsrfCookie` is the `csrf-token` cookie presented by
the client; the handler's body never consults it. -/
def csrfTokenRoute (userAgent : Option String)
    (existingCsrfCookie : Option (List Char)) (authCookie : Option String)
    (randSessionHex : String) (freshToken : List Char) :
    Option (List Char × List Char) :=
  match userAgent with
  | none => none
  | some _ =>
    let _sessionId := match authCookie with
      | some v => v
      | none => randSessionHex
    if freshToken = [] then none
    else some (freshToken, freshToken)

def csrfTokA : List Char := generateCSRFToken (List.replicate 64 0)

def csrfTokB : List Char := generateCSRFToken (List.replicate 64 255)

/-- C9 as stated is false: a client already holding the still-valid
cookie `csrfTokA` receives and has re-set the freshly minted
`csrfTokB`, not its existing cookie value. -/
theorem claim_C9_counterexample :
    csrfTokenRoute (some "agent") (some csrfTokA) none "sid" csrfTokB =
      some (csrfTokB, csrfTokB) ∧ csrfTokB ≠ csrfTokA := by
  constructor
  · rfl
  · decide

/-- C9 (amended): the issuance endpoint ignores any existing csrf-token
cookie entirely — the response is a function of the fresh random token
alone, and on every successful call it returns and sets exactly that
fresh token, so repeated issuance calls rotate the cookie instead of
reusing it. -/
theorem claim_C9 (ua : Option String) (ex1 ex2 : Option (List Char))
    (auth1 auth2 : Option String) (sid1 sid2 : String)
    (fresh : List Char) :
    csrfTokenRoute ua ex1 auth1 sid1 fresh =
      csrfTokenRoute ua ex2 auth2 sid2 fresh ∧
    (ua ≠ none → fresh ≠ [] →
      csrfTokenRoute ua ex1 auth1 sid1 fresh = some (fresh, fresh)) := by
  constructor
  · rfl
  · intro hua hfresh
    cases ua with
    | none => exact absurd rfl hua
    | some a =>
      show (if fresh = [] then none else some (fresh, fresh)) = some (fresh, fresh)
      rw [if_neg hfresh]

theorem claim_C9_witness :
    csrfTokenRoute (some "agent") none none "sid" csrfTokB =
      some (csrfTokB, csrfTokB) :=
  (claim_C9 (some "agent") none none none none "sid" "sid" csrfTokB).2
    (by simp) (by decide)

end WhatsAppAuth
